import Mathlib

/-!
Shallow embedding of `ipgeocheck.py`, a one-shot CLI that reads a packet
capture, extracts IPv4 source/destination addresses, resolves globally
routable addresses to country codes through the external `whois` command,
and prints per-role country percentage distributions.

Modelling conventions:
* Python strings are `List Char` (`PyStr`); the handful of `str` methods the
  script uses (`split`, `lower`, `startswith`, `strip`) are reproduced as
  executable Lean functions with Python's semantics.
* An IPv4 address is its 32-bit numeric value (`Addr := Nat`).
* A captured packet is `Option (Addr × Addr)`: `some (src, dst)` when the
  packet carries an IPv4 layer, `none` otherwise (the list comprehensions on
  lines 69-70 of the script keep only packets with an IP layer).
* The external `whois` collaborator is an oracle `Addr → PyStr` giving the
  raw stdout of the subprocess for each address; a failed or empty invocation
  is an output with no country line.
* Python's `set(...)` (line 87) is modelled by `List.dedup`; iteration order
  of a Python set is arbitrary and no claim below depends on it.
* `Pool.map` (line 102) applies the resolver to each unique address
  independently; it is modelled as `List.map`, the per-address results being
  independent of one another.
* The pandas pipeline (boolean columns, `.loc` row selection, `.map`,
  `.fillna`, `value_counts`) is modelled column-wise on lists; `value_counts`
  row order (descending count, unstable ties) is not modelled because no
  claim depends on it.
-/

namespace Ipgeocheck

/-- Python strings, modelled as lists of characters. -/
abbrev PyStr := List Char

/-- Python's `s.split(sep)` for a single-character separator: splits at every
occurrence of `sep`, keeping empty fields, and yields `[""]` on `""`. -/
def pySplit (sep : Char) : PyStr → List PyStr
  | [] => [[]]
  | c :: rest =>
    let r := pySplit sep rest
    if c == sep then [] :: r
    else
      match r with
      | [] => [[c]]
      | h :: t => (c :: h) :: t

/-- ASCII whitespace recognised by Python's `str.strip` / `str.split()`. -/
def pyIsSpace (c : Char) : Bool :=
  c == ' ' || c == '\t' || c == '\n' || c == '\r' || c == '\x0b' || c == '\x0c'

/-- Python's `s.strip()`: removes leading and trailing whitespace. -/
def pyStrip (s : PyStr) : PyStr :=
  ((s.dropWhile pyIsSpace).reverse.dropWhile pyIsSpace).reverse

/-- Python's `s.lower()` (ASCII case only, which is all whois output uses). -/
def pyLower (s : PyStr) : PyStr := s.map Char.toLower

/-- Python's `s.startswith(pre)`. -/
def pyStartsWith (s pre : PyStr) : Bool := s.take pre.length == pre

/-- Whitespace-delimited tokens of a line (split on any whitespace run,
dropping empty fields), as in Python's argument-free `str.split()`. -/
def wsTokens (s : PyStr) : List PyStr :=
  (List.splitOnP pyIsSpace s).filter (fun t => !t.isEmpty)

/-- IPv4 address as its 32-bit numeric value. -/
abbrev Addr := Nat

/-- Address from dotted-quad octets. -/
def mkIp (a b c d : Nat) : Addr := ((a * 256 + b) * 256 + c) * 256 + d

/-- Membership of an address in the CIDR block `base/plen`. -/
def inNet (base plen : Nat) (a : Addr) : Bool :=
  a / 2 ^ (32 - plen) == base / 2 ^ (32 - plen)

/-- The `IPv4Address.is_private` predicate of Python's `ipaddress` module:
membership in any of the standard reserved ranges (RFC 5735-class table used
by CPython's `_private_networks`). -/
def is_private (a : Addr) : Bool :=
  inNet (mkIp 0 0 0 0) 8 a || inNet (mkIp 10 0 0 0) 8 a ||
  inNet (mkIp 127 0 0 0) 8 a || inNet (mkIp 169 254 0 0) 16 a ||
  inNet (mkIp 172 16 0 0) 12 a || inNet (mkIp 192 0 0 0) 29 a ||
  inNet (mkIp 192 0 0 170) 31 a || inNet (mkIp 192 0 2 0) 24 a ||
  inNet (mkIp 192 88 99 0) 24 a || inNet (mkIp 192 168 0 0) 16 a ||
  inNet (mkIp 198 18 0 0) 15 a || inNet (mkIp 198 51 100 0) 24 a ||
  inNet (mkIp 203 0 113 0) 24 a || inNet (mkIp 240 0 0 0) 4 a ||
  inNet (mkIp 255 255 255 255) 32 a

/-- The `IPv4Address.is_global` predicate of Python's `ipaddress` module:
not in the shared address space 100.64.0.0/10 and not private. -/
def is_global (a : Addr) : Bool :=
  !inNet (mkIp 100 64 0 0) 10 a && !is_private a

/-- The `IPv4Address.is_multicast` predicate: the 224.0.0.0/4 block. -/
def is_multicast (a : Addr) : Bool := inNet (mkIp 224 0 0 0) 4 a

/-- Eligibility predicate as the spec words it (section 4.2): globally
routable and not multicast. -/
def is_eligible (a : Addr) : Bool := is_global a && !is_multicast a

/-- A captured packet: `some (src, dst)` when it carries an IPv4 layer. -/
abbrev Packet := Option (Addr × Addr)

/-- The (source, destination) pairs of the packets that carry an IPv4 layer
(script lines 69-70: the two comprehensions guard on `sc.IP in a`). -/
def pairsOf (packets : List Packet) : List (Addr × Addr) := packets.filterMap id

/-- The `src` column of the dataframe (line 73). -/
def srcCol (pairs : List (Addr × Addr)) : List Addr := pairs.map Prod.fst

/-- The `dest` column of the dataframe (line 73). -/
def destCol (pairs : List (Addr × Addr)) : List Addr := pairs.map Prod.snd

/-- Column `src_valid` (line 84): the `src` column filtered by the conjunction of
the `src_global` and `src_not_multicast` boolean columns (lines 76, 80). -/
def srcValid (pairs : List (Addr × Addr)) : List Addr :=
  (srcCol pairs).filter (fun x => is_global x && !is_multicast x)

/-- Column `dest_valid` (line 85): the `dest` column filtered by the conjunction of
the `dest_global` and `dest_not_multicast` boolean columns (lines 77, 81). -/
def destValid (pairs : List (Addr × Addr)) : List Addr :=
  (destCol pairs).filter (fun x => is_global x && !is_multicast x)

/-- Set `addrs = set([*src_valid, *dest_valid])` (line 87), as a duplicate-free
list. -/
def addrsOf (packets : List Packet) : List Addr :=
  (srcValid (pairsOf packets) ++ destValid (pairsOf packets)).dedup

/-- Country extraction inside `get_country_by_ip` (lines 27-36): split the
whois stdout on newlines, keep the lines whose lowercasing starts with
`"country"`, and if any exist take the last one, split it on single spaces,
take the last field and strip it; otherwise no country. -/
def parseCountry (stdout : PyStr) : Option PyStr :=
  let result := pySplit '\n' stdout
  let country := result.filter (fun x => pyStartsWith (pyLower x) ("country".toList))
  match country.getLast? with
  | some line => some (pyStrip ((pySplit ' ' line).getLastD []))
  | none => none

/-- Function `get_country_by_ip` (lines 24-36): returns the pair of the address and
its optional country code, reading the whois collaborator's stdout. -/
def get_country_by_ip (whois : Addr → PyStr) (ip : Addr) : Addr × Option PyStr :=
  (ip, parseCountry (whois ip))

/-- Result `res = pool.map(get_country_by_ip, addrs)` (line 102): one resolver
invocation per element of the deduplicated address set. -/
def resolutionResults (whois : Addr → PyStr) (packets : List Packet) :
    List (Addr × Option PyStr) :=
  (addrsOf packets).map (get_country_by_ip whois)

/-- Dict `mapping` built by comprehension from `res` (line 103), as an association
list; its keys are duplicate-free, so `List.lookup` agrees with the dict. -/
def mappingOf (whois : Addr → PyStr) (packets : List Packet) :
    List (Addr × Option PyStr) :=
  resolutionResults whois packets

/-- Country attributed to one address by `df[...].map(mapping)` followed by
`fillna("LOCAL")` (lines 107-111): a key absent from the mapping, or present
with value `None`, becomes `"LOCAL"`. -/
def attrib (m : List (Addr × Option PyStr)) (a : Addr) : PyStr :=
  match m.lookup a with
  | some (some c) => c
  | some none => "LOCAL".toList
  | none => "LOCAL".toList

/-- The `src_country` column after `fillna` (lines 107, 110). -/
def srcCountries (whois : Addr → PyStr) (packets : List Packet) : List PyStr :=
  (srcCol (pairsOf packets)).map (attrib (mappingOf whois packets))

/-- The `dest_country` column after `fillna` (lines 108, 111). -/
def destCountries (whois : Addr → PyStr) (packets : List Packet) : List PyStr :=
  (destCol (pairsOf packets)).map (attrib (mappingOf whois packets))

/-- Computation `value_counts() / df.shape[0] * 100` (lines 118, 122): one row per
distinct country value with its exact (unrounded) percentage of the column
length. Row order is not modelled (pandas sorts by descending count with
unstable ties; no claim depends on the order). -/
def distributionRows (vals : List PyStr) : List (PyStr × ℚ) :=
  vals.dedup.map (fun c => (c, (vals.count c : ℚ) / (vals.length : ℚ) * 100))

/-- The source-role distribution table (lines 118-120). -/
def srcDistribution (whois : Addr → PyStr) (packets : List Packet) :
    List (PyStr × ℚ) :=
  distributionRows (srcCountries whois packets)

/-- The destination-role distribution table (lines 122-124). -/
def destDistribution (whois : Addr → PyStr) (packets : List Packet) :
    List (PyStr × ℚ) :=
  distributionRows (destCountries whois packets)

/-- Round-half-to-even on rationals, the rounding mode of Python's `round`. -/
def roundHalfEven (q : ℚ) : ℤ :=
  if Int.fract q < 1 / 2 then ⌊q⌋
  else if 1 / 2 < Int.fract q then ⌊q⌋ + 1
  else if ⌊q⌋ % 2 = 0 then ⌊q⌋ else ⌊q⌋ + 1

/-- Python's `round(p, 2)` used for display (lines 120, 124), modelled
exactly on rationals. -/
def round2 (q : ℚ) : ℚ := (roundHalfEven (q * 100) : ℚ) / 100

/-- The displayed rows: each percentage rounded to two decimals. -/
def renderedRows (rows : List (PyStr × ℚ)) : List (PyStr × ℚ) :=
  rows.map (fun r => (r.1, round2 r.2))

/-- Worker-pool sizing (lines 95-99): `av_cores = os.cpu_count()`, then
subtract 2 when at least 4, else use 2. -/
def workerCount (cpus : Nat) : Nat := if 4 ≤ cpus then cpus - 2 else 2

/-- Python truthiness of the optional `--packages` value: `None` and `0` are
falsy, every other integer is truthy. -/
def truthyOptInt : Option Int → Bool
  | none => false
  | some n => n != 0

/-- Packet reading (lines 64-67): `rdpcap(file, count=packages)` when the
`packages` option is truthy, else `rdpcap(file)` reading everything. -/
def readCapture (capture : List Packet) (packages : Option Int) : List Packet :=
  if truthyOptInt packages then capture.take ((packages.getD 0).toNat)
  else capture

/-- The first whitespace-delimited token of a line (empty if none). -/
def firstWsToken (l : PyStr) : PyStr := (wsTokens l).headD []

/-- The final whitespace-delimited token of a line (empty if none). -/
def lastWsToken (l : PyStr) : PyStr := (wsTokens l).getLastD []

/-- Country extraction as claim C2 words it: select the lines whose FIRST
TOKEN is `"country"` (case-insensitively), take the last such line, and
return its final WHITESPACE-delimited token, trimmed. Stated from the
claim's words, for comparison against `parseCountry`. -/
def claimCountryOf (stdout : PyStr) : Option PyStr :=
  let ls := pySplit '\n' stdout
  let sel := ls.filter (fun l => pyLower (firstWsToken l) == ("country".toList))
  match sel.getLast? with
  | some line => some (pyStrip (lastWsToken line))
  | none => none

/-- The last line of the output whose lowercasing starts with `"country"`,
phrased independently of `parseCountry` (search from the end). -/
def lastCountryLine (stdout : PyStr) : Option PyStr :=
  (pySplit '\n' stdout).reverse.find? (fun l => pyStartsWith (pyLower l) ("country".toList))

/-- Helper: the head of a filtered list is the first element satisfying the
predicate. -/
lemma head?_filter_eq_find? {α : Type} (p : α → Bool) (l : List α) :
    (l.filter p).head? = l.find? p := by
  induction l with
  | nil => rfl
  | cons a t ih =>
    by_cases h : p a
    · simp [List.filter_cons, h]
    · simp [List.filter_cons, h, ih]

/-- Helper: the last element of a filtered list is the last element
satisfying the predicate, i.e. the first one found from the reversed list. -/
lemma getLast?_filter_eq_find?_reverse {α : Type} (p : α → Bool) (l : List α) :
    (l.filter p).getLast? = l.reverse.find? p := by
  rw [List.getLast?_eq_head?_reverse, ← List.filter_reverse, head?_filter_eq_find?]

/-- C1: the eligibility predicate deciding inclusion in the lookup set is
exactly `is_global && !is_multicast`, for both the source and the
destination role, and it excludes 10.0.0.1, admits 8.8.8.8, and excludes
the multicast address 224.0.0.1. -/
theorem eligibility_gate (pairs : List (Addr × Addr)) :
    srcValid pairs = (srcCol pairs).filter is_eligible ∧
    destValid pairs = (destCol pairs).filter is_eligible ∧
    is_eligible (mkIp 10 0 0 1) = false ∧
    is_eligible (mkIp 8 8 8 8) = true ∧
    is_eligible (mkIp 224 0 0 1) = false :=
  ⟨rfl, rfl, by decide, by decide, by decide⟩

/-- C2 counterexample: on the single-line whois output `"country: US"` the
code returns the country `"US"`, while the parser described by the claim
(first whitespace token equal to `"country"`) selects no line at all, the
first token being `"country:"`; and on `"country:\tFR"` the code returns
the whole line (it splits on single spaces only), not the final
whitespace-delimited token `"FR"` the claim describes. -/
theorem resolver_parse_claim_counterexample :
    parseCountry ("country: US".toList) = some ("US".toList) ∧
    claimCountryOf ("country: US".toList) = none ∧
    parseCountry ("country:\tFR".toList) = some ("country:\tFR".toList) ∧
    claimCountryOf ("country:\tFR".toList) = none := by
  refine ⟨by decide, by decide, by decide, by decide⟩

/-- C2 (amended): the resolver selects, case-insensitively, the lines that
START WITH `"country"` (a prefix match, not a first-token match); if one or
more such lines exist it takes the last one and returns the final
single-space-delimited field of that line, stripped of surrounding
whitespace; if no such line exists it returns no country. -/
theorem resolver_line_selection (stdout : PyStr) :
    parseCountry stdout
      = (lastCountryLine stdout).map
          (fun line => pyStrip ((pySplit ' ' line).getLastD [])) := by
  have hmatch : ∀ (o : Option PyStr),
      (match o with
       | some line => some (pyStrip ((pySplit ' ' line).getLastD []))
       | none => none)
        = o.map (fun line => pyStrip ((pySplit ' ' line).getLastD [])) := by
    intro o; cases o <;> rfl
  unfold parseCountry lastCountryLine
  rw [← getLast?_filter_eq_find?_reverse, ← hmatch]

/-- Helper: looking up a key in an association list built by pairing each
element of a key list with a function of it yields exactly the function's
value on present keys and nothing on absent keys. -/
lemma lookup_keyed_map (f : Addr → Option PyStr) (l : List Addr) (a : Addr) :
    (l.map (fun x => (x, f x))).lookup a
      = if a ∈ l then some (f a) else none := by
  induction l with
  | nil => rfl
  | cons b t ih =>
    by_cases hab : a = b
    · subst hab
      simp [List.lookup]
    · simp [List.lookup, beq_false_of_ne hab, ih, hab]

/-- Helper: the mapping built on line 103 is the association list keyed by
the deduplicated address set, valued by the resolver's per-address result. -/
lemma mappingOf_lookup (whois : Addr → PyStr) (packets : List Packet) (a : Addr) :
    (mappingOf whois packets).lookup a
      = if a ∈ addrsOf packets then some (parseCountry (whois a)) else none := by
  unfold mappingOf resolutionResults get_country_by_ip
  exact lookup_keyed_map (fun x => parseCountry (whois x)) (addrsOf packets) a

/-- C4: a lookup that yields no usable country line for a single address
gives `country = None` for that address only: its mapping entry is `None`,
its report attribution is `LOCAL`, and every other address's mapping entry
is exactly the resolver's result for that address, unaffected by the
failure. -/
theorem soft_failure_containment (whois : Addr → PyStr) (packets : List Packet)
    (a : Addr) (ha : a ∈ addrsOf packets)
    (hfail : parseCountry (whois a) = none) :
    (mappingOf whois packets).lookup a = some none ∧
    attrib (mappingOf whois packets) a = "LOCAL".toList ∧
    (∀ b ∈ addrsOf packets, b ≠ a →
      (mappingOf whois packets).lookup b = some (parseCountry (whois b))) := by
  have hla : (mappingOf whois packets).lookup a = some none := by
    rw [mappingOf_lookup, if_pos ha, hfail]
  refine ⟨hla, ?_, ?_⟩
  · unfold attrib
    rw [hla]
  · intro b hb _
    rw [mappingOf_lookup, if_pos hb]

/-- Concrete run for the C4 witness: one packet from 8.8.8.8 to 1.1.1.1,
with a whois oracle that answers only for 8.8.8.8 and returns empty output
(a failed lookup) for every other address. -/
def c4Packets : List Packet := [some (mkIp 8 8 8 8, mkIp 1 1 1 1)]

/-- Whois oracle for the C4 witness. -/
def c4Whois : Addr → PyStr :=
  fun a => if a == mkIp 8 8 8 8 then ("country: US".toList) else []

/-- C4 witness: in the concrete run, 1.1.1.1's lookup fails softly, it is
attributed LOCAL, and 8.8.8.8's result is untouched. -/
theorem soft_failure_containment_witness :
    (mkIp 1 1 1 1 ∈ addrsOf c4Packets ∧
      parseCountry (c4Whois (mkIp 1 1 1 1)) = none) ∧
    ((mappingOf c4Whois c4Packets).lookup (mkIp 1 1 1 1) = some none ∧
      attrib (mappingOf c4Whois c4Packets) (mkIp 1 1 1 1) = "LOCAL".toList ∧
      (∀ b ∈ addrsOf c4Packets, b ≠ mkIp 1 1 1 1 →
        (mappingOf c4Whois c4Packets).lookup b
          = some (parseCountry (c4Whois b)))) :=
  ⟨⟨by decide, by decide⟩,
    soft_failure_containment c4Whois c4Packets (mkIp 1 1 1 1)
      (by decide) (by decide)⟩

/-- Helper: in a duplicate-free list, the number of elements equal to `a`
is one when `a` occurs and zero otherwise. -/
lemma countP_beq_of_nodup (l : List Addr) (hl : l.Nodup) (a : Addr) :
    l.countP (fun x => x == a) = if a ∈ l then 1 else 0 := by
  induction l with
  | nil => rfl
  | cons b t ih =>
    rw [List.countP_cons]
    rcases List.nodup_cons.mp hl with ⟨hbt, hnt⟩
    by_cases hab : a = b
    · subst hab
      simp [ih hnt, hbt]
    · simp only [List.mem_cons]
      rw [ih hnt]
      simp [hab, Ne.symm hab]

/-- C6: resolution deduplicates before dispatch: the resolver is invoked
once per distinct eligible address — the invocation list has one entry per
element of the eligible-address set (so its length is the number of
distinct eligible addresses), and an address occurring any number of times
among the eligible source/destination occurrences gets exactly one
invocation. -/
theorem dedup_single_dispatch (whois : Addr → PyStr) (packets : List Packet)
    (a : Addr) :
    (resolutionResults whois packets).length
      = ((srcValid (pairsOf packets) ++ destValid (pairsOf packets)).toFinset).card ∧
    (resolutionResults whois packets).countP (fun r => r.1 == a)
      = (if a ∈ srcValid (pairsOf packets) ++ destValid (pairsOf packets)
         then 1 else 0) := by
  constructor
  · unfold resolutionResults addrsOf
    rw [List.length_map, Finset.card_def, List.toFinset_val, Multiset.coe_card]
  · unfold resolutionResults addrsOf get_country_by_ip
    rw [List.countP_map]
    have h := countP_beq_of_nodup
      ((srcValid (pairsOf packets) ++ destValid (pairsOf packets)).dedup)
      (List.nodup_dedup _) a
    simp only [List.mem_dedup] at h
    exact h

/-- C8: the domain of the built address→country mapping is exactly the
deduplicated set of eligible (globally routable, non-multicast) addresses
observed among the extracted source and destination addresses: lookup
succeeds exactly on members of that set, and membership in that set is
equivalent to being an observed source or destination address that passes
the eligibility predicate. -/
theorem mapping_domain (whois : Addr → PyStr) (packets : List Packet)
    (a : Addr) :
    ((mappingOf whois packets).lookup a ≠ none ↔ a ∈ addrsOf packets) ∧
    (a ∈ addrsOf packets ↔
      (a ∈ srcCol (pairsOf packets) ∨ a ∈ destCol (pairsOf packets)) ∧
        is_eligible a = true) := by
  constructor
  · rw [mappingOf_lookup]
    by_cases h : a ∈ addrsOf packets
    · simp [h]
    · simp [h]
  · unfold addrsOf srcValid destValid
    rw [List.mem_dedup, List.mem_append, List.mem_filter, List.mem_filter]
    unfold is_eligible
    constructor
    · rintro (⟨hm, hp⟩ | ⟨hm, hp⟩)
      · exact ⟨Or.inl hm, hp⟩
      · exact ⟨Or.inr hm, hp⟩
    · rintro ⟨hm | hm, hp⟩
      · exact Or.inl ⟨hm, hp⟩
      · exact Or.inr ⟨hm, hp⟩

/-- C5: the worker-pool size is `max 2 (cpus - 2)` for `cpus ≥ 4` and `2`
otherwise; in particular 8 CPUs give 6 workers, 4 give 2, and 2 give 2. -/
theorem worker_pool_size (cpus : Nat) :
    workerCount cpus = (if 4 ≤ cpus then max 2 (cpus - 2) else 2) ∧
    workerCount 8 = 6 ∧ workerCount 4 = 2 ∧ workerCount 2 = 2 := by
  refine ⟨?_, by decide, by decide, by decide⟩
  unfold workerCount
  rcases le_or_lt 4 cpus with h | h
  · rw [if_pos h, if_pos h, Nat.max_eq_right (by omega)]
  · rw [if_neg (by omega), if_neg (by omega)]

/-- Concrete capture shared by the C3 and C7 examples: one frame without an
IPv4 layer and one IPv4 packet from 8.8.8.8 to the private 10.0.0.1. -/
def c3Packets : List Packet := [none, some (mkIp 8 8 8 8, mkIp 10 0 0 1)]

/-- Whois oracle answering `"country: US"` for every address. -/
def c3Whois : Addr → PyStr := fun _ => "country: US".toList

/-- Helper: the distribution of a constant nonempty column is the single
row of that value at exactly 100 percent. -/
lemma distributionRows_replicate (c : PyStr) (n : Nat) (hn : n ≠ 0) :
    distributionRows (List.replicate n c) = [(c, 100)] := by
  unfold distributionRows
  rw [List.replicate_dedup hn, List.map_singleton, List.count_replicate_self,
    List.length_replicate]
  have hq : ((n : ℚ)) / ((n : ℚ)) * 100 = 100 := by
    rw [div_self (Nat.cast_ne_zero.mpr hn), one_mul]
  rw [hq]

/-- Helper: evaluation of the source-role distribution on the concrete
C3 capture: the one IPv4 packet resolves to US, giving a single row at
100 percent. -/
lemma c3_src_distribution_eval :
    srcDistribution c3Whois c3Packets = [("US".toList, (100 : ℚ))] := by
  have h : srcCountries c3Whois c3Packets = ["US".toList] := by decide
  unfold srcDistribution
  rw [h]
  exact distributionRows_replicate ("US".toList) 1 one_ne_zero

/-- C3 counterexample: on a capture of 2 packets of which only 1 carries an
IPv4 layer, the single attributed source country US is reported at 100
percent (divided by the pair count 1), not at the 50 percent that dividing
by the run's total packet count 2 would give. -/
theorem percentage_divisor_counterexample :
    srcDistribution c3Whois c3Packets = [("US".toList, (100 : ℚ))] ∧
    c3Packets.length = 2 ∧
    (pairsOf c3Packets).length = 1 ∧
    ((1 : ℚ) / (2 : ℚ) * 100 = 50) ∧ ((100 : ℚ) ≠ 50) :=
  ⟨c3_src_distribution_eval, by decide, by decide, by norm_num, by norm_num⟩

/-- Helper: a row of the distribution table carries exactly the count of
its value in the column divided by the column length, times 100. -/
lemma distributionRows_mem (vals : List PyStr) (c : PyStr) (q : ℚ)
    (h : (c, q) ∈ distributionRows vals) :
    q = (vals.count c : ℚ) / (vals.length : ℚ) * 100 := by
  unfold distributionRows at h
  rcases List.mem_map.mp h with ⟨c', _, heq⟩
  rw [Prod.ext_iff] at heq
  obtain ⟨h1, h2⟩ := heq
  dsimp at h1 h2
  subst h1
  exact h2.symm

/-- Helper: counting a value in an attributed role column equals counting
the pairs whose role address is attributed that value. -/
lemma count_attrib_col (pairs : List (Addr × Addr)) (f : Addr × Addr → Addr)
    (m : List (Addr × Option PyStr)) (c : PyStr) :
    ((pairs.map f).map (attrib m)).count c
      = pairs.countP (fun p => attrib m (f p) == c) := by
  rw [List.map_map, List.count_eq_countP, List.countP_map]
  rfl

/-- C3 (amended): each role's percentage for a country equals the count of
packet address pairs attributed to that country in that role, divided by
the number of IPv4-carrying packets of the run (the total pair count — not
the raw packet count, which also counts frames without an IPv4 layer),
times 100; the displayed row carries that value rounded to 2 decimals. -/
theorem percentage_formula (whois : Addr → PyStr) (packets : List Packet)
    (c : PyStr) (q : ℚ) :
    ((c, q) ∈ srcDistribution whois packets →
      q = ((pairsOf packets).countP
            (fun p => attrib (mappingOf whois packets) p.1 == c) : ℚ)
          / ((pairsOf packets).length : ℚ) * 100 ∧
      (c, round2 q) ∈ renderedRows (srcDistribution whois packets)) ∧
    ((c, q) ∈ destDistribution whois packets →
      q = ((pairsOf packets).countP
            (fun p => attrib (mappingOf whois packets) p.2 == c) : ℚ)
          / ((pairsOf packets).length : ℚ) * 100 ∧
      (c, round2 q) ∈ renderedRows (destDistribution whois packets)) := by
  constructor
  · intro h
    constructor
    · have hq := distributionRows_mem (srcCountries whois packets) c q h
      rw [hq]
      unfold srcCountries srcCol
      rw [count_attrib_col (pairsOf packets) Prod.fst (mappingOf whois packets) c,
        List.length_map, List.length_map]
    · exact List.mem_map.mpr ⟨(c, q), h, rfl⟩
  · intro h
    constructor
    · have hq := distributionRows_mem (destCountries whois packets) c q h
      rw [hq]
      unfold destCountries destCol
      rw [count_attrib_col (pairsOf packets) Prod.snd (mappingOf whois packets) c,
        List.length_map, List.length_map]
    · exact List.mem_map.mpr ⟨(c, q), h, rfl⟩

/-- C3 witness: the amended formula instantiated on the concrete capture:
the US row carries 100 = 1 / 1 × 100. -/
theorem percentage_formula_witness :
    (("US".toList, (100 : ℚ)) ∈ srcDistribution c3Whois c3Packets) ∧
    ((100 : ℚ) = ((pairsOf c3Packets).countP
        (fun p => attrib (mappingOf c3Whois c3Packets) p.1 == ("US".toList)) : ℚ)
      / ((pairsOf c3Packets).length : ℚ) * 100 ∧
    ("US".toList, round2 (100 : ℚ))
      ∈ renderedRows (srcDistribution c3Whois c3Packets)) := by
  have hmem : ("US".toList, (100 : ℚ)) ∈ srcDistribution c3Whois c3Packets := by
    rw [c3_src_distribution_eval]
    exact List.mem_singleton_self _
  exact ⟨hmem,
    (percentage_formula c3Whois c3Packets ("US".toList) 100).1 hmem⟩

/-- Helper: the boolean-equality instance derived from decidable equality
agrees with the structural one on `PyStr`. -/
lemma beq_inst_eq_pystr : (instBEqOfDecidableEq : BEq PyStr) = List.instBEq := by
  have hfield : (fun (a b : PyStr) => decide (a = b)) = (fun (a b : PyStr) => a == b) := by
    funext a b
    by_cases h : a = b <;> simp [h]
  show BEq.mk _ = _
  rw [hfield]

/-- Helper: over a nonempty column, the unrounded distribution percentages
sum to exactly 100. -/
lemma distributionRows_sum_eq_100 (vals : List PyStr) (h : vals ≠ []) :
    ((distributionRows vals).map Prod.snd).sum = 100 := by
  have hlen : ((vals.length : ℚ)) ≠ 0 :=
    Nat.cast_ne_zero.mpr (fun h0 => h (List.length_eq_zero.mp h0))
  unfold distributionRows
  rw [List.map_map]
  have hfun : (Prod.snd ∘ fun c => (c, (vals.count c : ℚ) / (vals.length : ℚ) * 100))
      = fun c => ((vals.count c : ℚ)) * ((100 : ℚ) / (vals.length : ℚ)) := by
    funext c
    show (vals.count c : ℚ) / (vals.length : ℚ) * 100 = _
    rw [div_mul_eq_mul_div, mul_div_assoc]
  rw [hfun, List.sum_map_mul_right]
  have hcast : ∀ (l : List PyStr) (f : PyStr → ℕ),
      (l.map fun c => ((f c : ℕ) : ℚ)).sum = (((l.map f).sum : ℕ) : ℚ) := by
    intro l f
    induction l with
    | nil => simp
    | cons a t ih => simp [ih]
  rw [hcast vals.dedup (fun c => List.count c vals)]
  have hsum := List.sum_map_count_dedup_eq_length vals
  rw [beq_inst_eq_pystr] at hsum
  rw [hsum, mul_comm, div_mul_cancel₀ _ hlen]

/-- C7 counterexample: on a capture with no IPv4-carrying packets the
distribution table is empty, so its percentages sum to 0, not 100. -/
theorem percentage_sum_counterexample :
    srcDistribution c3Whois [] = [] ∧
    ((srcDistribution c3Whois []).map Prod.snd).sum = 0 ∧
    ((0 : ℚ) ≠ 100) :=
  ⟨rfl, rfl, by norm_num⟩

/-- C7 (amended): for every capture with at least one IPv4-carrying packet,
and for each role, the unrounded percentages of all distribution rows,
including the LOCAL row, sum to exactly 100. -/
theorem percentages_sum_to_100 (whois : Addr → PyStr) (packets : List Packet)
    (h : pairsOf packets ≠ []) :
    ((srcDistribution whois packets).map Prod.snd).sum = 100 ∧
    ((destDistribution whois packets).map Prod.snd).sum = 100 := by
  constructor
  · apply distributionRows_sum_eq_100
    unfold srcCountries srcCol
    simp [h]
  · apply distributionRows_sum_eq_100
    unfold destCountries destCol
    simp [h]

/-- C7 witness: the percentage sums on the concrete C3 capture are 100 for
both roles. -/
theorem percentages_sum_to_100_witness :
    pairsOf c3Packets ≠ [] ∧
    (((srcDistribution c3Whois c3Packets).map Prod.snd).sum = 100 ∧
     ((destDistribution c3Whois c3Packets).map Prod.snd).sum = 100) :=
  ⟨by decide, percentages_sum_to_100 c3Whois c3Packets (by decide)⟩

/-- Capture for the C9 counterexample: a single frame without an IPv4
layer. It yields zero eligible addresses, so it is covered by the claim,
yet it also yields zero address pairs. -/
def c9NoIpPackets : List Packet := [none]

/-- C9 counterexample: a capture whose only frame carries no IPv4 layer
yields zero eligible addresses and the resolution phase indeed runs on the
empty set, but each role's distribution report is empty — not the single
row LOCAL at 100 percent the claim states for every capture with zero
eligible addresses. -/
theorem all_local_empty_counterexample :
    addrsOf c9NoIpPackets = [] ∧
    resolutionResults c3Whois c9NoIpPackets = [] ∧
    srcDistribution c3Whois c9NoIpPackets = [] ∧
    destDistribution c3Whois c9NoIpPackets = [] ∧
    ([] : List (PyStr × ℚ)) ≠ [("LOCAL".toList, 100)] :=
  ⟨by decide, by decide, rfl, rfl, by simp⟩

/-- C9 (amended): on a capture with at least one IPv4-carrying packet
whose IPv4 packets all carry ineligible addresses in both roles, the
eligible-address set is empty, the resolution phase runs on the empty set
producing no results, and each role's distribution report is the single
row LOCAL at 100 percent. -/
theorem all_local_degenerate (whois : Addr → PyStr) (packets : List Packet)
    (hne : pairsOf packets ≠ [])
    (hloc : ∀ p ∈ pairsOf packets,
      is_eligible p.1 = false ∧ is_eligible p.2 = false) :
    addrsOf packets = [] ∧
    resolutionResults whois packets = [] ∧
    srcDistribution whois packets = [("LOCAL".toList, 100)] ∧
    destDistribution whois packets = [("LOCAL".toList, 100)] := by
  have hsrc : srcValid (pairsOf packets) = [] := by
    unfold srcValid srcCol
    apply List.filter_eq_nil_iff.mpr
    intro a ha
    rcases List.mem_map.mp ha with ⟨p, hp, rfl⟩
    have h1 := (hloc p hp).1
    unfold is_eligible at h1
    simp [h1]
  have hdest : destValid (pairsOf packets) = [] := by
    unfold destValid destCol
    apply List.filter_eq_nil_iff.mpr
    intro a ha
    rcases List.mem_map.mp ha with ⟨p, hp, rfl⟩
    have h2 := (hloc p hp).2
    unfold is_eligible at h2
    simp [h2]
  have haddrs : addrsOf packets = [] := by
    unfold addrsOf
    rw [hsrc, hdest]
    rfl
  have hres : resolutionResults whois packets = [] := by
    unfold resolutionResults
    rw [haddrs]
    rfl
  have hattr : attrib (mappingOf whois packets) = fun _ => "LOCAL".toList := by
    funext a
    unfold attrib mappingOf
    rw [hres]
    rfl
  have hn : (pairsOf packets).length ≠ 0 :=
    fun h0 => hne (List.length_eq_zero.mp h0)
  refine ⟨haddrs, hres, ?_, ?_⟩
  · unfold srcDistribution srcCountries srcCol
    rw [List.map_map, hattr]
    rw [show ((fun _ => "LOCAL".toList) ∘ Prod.fst : Addr × Addr → PyStr)
        = fun _ => "LOCAL".toList from rfl]
    rw [List.map_const']
    exact distributionRows_replicate _ _ hn
  · unfold destDistribution destCountries destCol
    rw [List.map_map, hattr]
    rw [show ((fun _ => "LOCAL".toList) ∘ Prod.snd : Addr × Addr → PyStr)
        = fun _ => "LOCAL".toList from rfl]
    rw [List.map_const']
    exact distributionRows_replicate _ _ hn

/-- Concrete all-local capture for the C9 witness: one IPv4 packet between
two private addresses. -/
def c9Packets : List Packet := [some (mkIp 10 0 0 1, mkIp 192 168 0 1)]

/-- C9 witness: the degenerate all-local run on the concrete capture. -/
theorem all_local_degenerate_witness :
    (pairsOf c9Packets ≠ [] ∧
      ∀ p ∈ pairsOf c9Packets,
        is_eligible p.1 = false ∧ is_eligible p.2 = false) ∧
    (addrsOf c9Packets = [] ∧
     resolutionResults c4Whois c9Packets = [] ∧
     srcDistribution c4Whois c9Packets = [("LOCAL".toList, 100)] ∧
     destDistribution c4Whois c9Packets = [("LOCAL".toList, 100)]) :=
  ⟨⟨by decide, by decide⟩,
    all_local_degenerate c4Whois c9Packets (by decide) (by decide)⟩

/-- C10: passing `--packages 0` behaves exactly like omitting the option:
the value 0 is falsy, so no packet cap is applied and the whole capture is
read, identically to the `None` default. -/
theorem packages_zero_no_cap (capture : List Packet) :
    readCapture capture (some 0) = capture ∧
    readCapture capture none = capture ∧
    readCapture capture (some 0) = readCapture capture none ∧
    truthyOptInt (some 0) = false ∧
    truthyOptInt none = false :=
  ⟨rfl, rfl, rfl, rfl, rfl⟩

end Ipgeocheck
